import Mathlib

/-!
Verification development for the lead-scraper repository (src/src/main.py).

The Python source is shallowly embedded: pure fragments become Lean
functions, the network is passed in as an explicit outcome parameter, and
Python exceptions are modelled with `Except String`.  Python strings are
modelled as Lean `String` (ASCII content), a JSON/dict field that may be
absent or `null` is modelled as `Option (Option String)` (outer layer:
key present, inner layer: value non-null), and a nullable value as
`Option String`.
-/

namespace LeadScraper

/-- Python truthiness of an optional string: `None` and `""` are falsy. -/
def optTruthy : Option String → Bool
  | none => false
  | some s => !s.isEmpty

/-- Python `str.strip()`: drop leading and trailing whitespace
(list-based so that it evaluates by kernel reduction). -/
def pyStrip (s : String) : String :=
  String.mk (((s.toList.dropWhile Char.isWhitespace).reverse.dropWhile
    Char.isWhitespace).reverse)

/-- Python `str.lower()` (ASCII). -/
def pyLower (s : String) : String :=
  String.mk (s.toList.map Char.toLower)

/-- Python `str.replace(c, "")` for a one-character needle: remove every
occurrence. -/
def removeAll (c : Char) (s : String) : String :=
  String.mk (s.toList.filter (fun d => d ≠ c))

/-- `d.get(k)` on a dict field modelled as `Option (Option String)`:
absent keys and stored `null` both come back as `None`. -/
def dictGet : Option (Option String) → Option String
  | none => none
  | some v => v

/-- `d.get(k, default)` : an absent key yields the default, a present key
yields the stored value even when it is `null`. -/
def dictGetD : Option (Option String) → String → Option String
  | none, dflt => some dflt
  | some v, _ => v

/-- `ExistingLead` (main.py:52-57): a pydantic model with exactly the two
fields `Business` and `Phone`; any other attribute access raises
`AttributeError`. -/
structure ExistingLead where
  Business : Option String
  Phone : Option String
  deriving Repr, DecidableEq

/-- One raw scraped record, a JSON object; only the four keys read by the
workflow are modelled.  Each field is `none` when the key is absent and
`some none` when the key is present holding `null`. -/
structure Item where
  title : Option (Option String) := none
  phone : Option (Option String) := none
  address : Option (Option String) := none
  website : Option (Option String) := none
  deriving Repr, DecidableEq

/-- The `lead_data` dict built by `_filter_new_leads` (main.py:579-588):
`title` and `phone` are guaranteed strings, `address`/`website` keep the
possibly-`null` value returned by `item.get(k, "")`, and the four contact
fields start out as `""`. -/
structure Lead where
  title : String
  phone : String
  address : Option String
  website : Option String
  email : String
  instagram : String
  facebook : String
  linkedin : String
  deriving Repr, DecidableEq

/-- `LeadScraperWorkflow._clean_phone` (main.py:548-549): strip every
`+` and every space. -/
def clean_phone (phone : String) : String :=
  removeAll ' ' (removeAll '+' phone)

/-- The candidate loop of `_filter_new_leads` (main.py:565-596), with the
two membership sets threaded through as explicit accumulators.  A present
`title` key holding `null` makes `item.get("title", "").strip()` raise
`AttributeError` (modelled as `Except.error`).  The function returns the
accepted leads together with the final tracking sets. -/
def filterAux (phones names : List String) :
    List Item → Except String (List Lead × List String × List String)
  | [] => .ok ([], phones, names)
  | item :: rest =>
    let phone := dictGet item.phone
    match dictGetD item.title "" with
    | none => .error "AttributeError: NoneType object has no attribute strip"
    | some rawTitle =>
      let title := pyStrip rawTitle
      match phone with
      | none => filterAux phones names rest
      | some p =>
        if p.isEmpty || title.isEmpty then
          filterAux phones names rest
        else
          let cp := clean_phone p
          let nn := pyLower title
          if cp ∈ phones ∨ nn ∈ names then
            filterAux phones names rest
          else
            let lead : Lead :=
              { title := title
                phone := cp
                address := dictGetD item.address ""
                website := dictGetD item.website ""
                email := ""
                instagram := ""
                facebook := ""
                linkedin := "" }
            match filterAux (cp :: phones) (nn :: names) rest with
            | .error e => .error e
            | .ok (leads, ps, ns) => .ok (lead :: leads, ps, ns)

/-- `LeadScraperWorkflow._filter_new_leads` (main.py:551-601).  The
existing-phone set is built from `lead.Phone`; building the name set then
reads `lead.Name`, an attribute `ExistingLead` does not define, so any
non-empty `existing` list raises `AttributeError` before the candidate
loop runs. -/
def filter_new_leads (scraped : List Item) (existing : List ExistingLead) :
    Except String (List Lead) :=
  let existingPhones := existing.filterMap (fun l => l.Phone.map clean_phone)
  match existing with
  | [] => (filterAux existingPhones [] scraped).map (fun r => r.1)
  | _ :: _ => .error "AttributeError: ExistingLead object has no attribute Name"

/-- Result of `WebsiteScraperService.scrape_website` (main.py:221-226):
four independently optional contact fields, all starting out `null`. -/
structure ScrapeResult where
  email : Option String := none
  instagram : Option String := none
  facebook : Option String := none
  linkedin : Option String := none
  deriving Repr, DecidableEq

/-- `LeadScraperWorkflow._enrich_leads` (main.py:603-616); the per-lead
website scrape is passed in as the function `scraper`. -/
def enrich_leads (scraper : String → ScrapeResult) (leads : List Lead) :
    List Lead :=
  leads.map fun lead =>
    match lead.website with
    | none => lead
    | some w =>
      if w.isEmpty then lead
      else
        let sd := scraper w
        { lead with
          email := sd.email.getD ""
          instagram := sd.instagram.getD ""
          facebook := sd.facebook.getD ""
          linkedin := sd.linkedin.getD "" }

/-- `ApifyJobData` (main.py:35-38). -/
structure ApifyJobData where
  id : String
  status : String
  defaultDatasetId : Option String
  deriving Repr, DecidableEq

/-- One iteration of the body of `_wait_for_completion` (main.py:620-630):
`some` when the loop exits this round (with the dataset id, or the fatal
missing-dataset error), `none` when it sleeps and polls again.  The exit
test in the source is exactly `status.status == "SUCCEEDED"`. -/
def pollOnce (s : ApifyJobData) : Option (Except String String) :=
  if s.status == "SUCCEEDED" then
    some (match s.defaultDatasetId with
      | none => .error "Job succeeded but no dataset ID found"
      | some d => .ok d)
  else none

/-- Fuel-indexed unfolding of the `while True` polling loop of
`_wait_for_completion` (main.py:618-630): `poll n` is the status returned
by the n-th `get_job_status` call; the result is `none` when the loop is
still running after consuming the fuel. -/
def wait_for_completion (poll : Nat → ApifyJobData) : Nat → Nat → Option (Except String String)
  | _, 0 => none
  | n, fuel + 1 =>
    match pollOnce (poll n) with
    | some r => some r
    | none => wait_for_completion poll (n + 1) fuel

/-- Modelled from the spec (§4.6, glossary): the terminal statuses of the
remote job state machine are SUCCEEDED, FAILED and ABORTED. -/
def isTerminalStatus (s : String) : Bool :=
  s == "SUCCEEDED" || s == "FAILED" || s == "ABORTED"

/-- Character class `[a-zA-Z0-9._%+-]` of the local part. -/
def isLocalChar (c : Char) : Bool :=
  c.isAlphanum || c == '.' || c == '_' || c == '%' || c == '+' || c == '-'

/-- Character class `[a-zA-Z0-9.-]` of the domain part. -/
def isDomainChar (c : Char) : Bool :=
  c.isAlphanum || c == '.' || c == '-'

/-- Character class `[A-Z|a-z]` of the top-level label in the source's
email pattern: note that the `|` inside the class is a literal pipe
character, not an alternation. -/
def isTldChar (c : Char) : Bool :=
  c.isAlpha || c == '|'

/-- `D+ \. T{2,}` anchored at both ends of `rest`, where `T` is the
parameter class: true iff `rest` splits as a non-empty run of domain
characters, a dot, and at least two `T` characters.  Backtracking regex
matching of this anchored pattern succeeds exactly when such a split
exists, which the bounded search over split points decides. -/
def domainTail (tldChar : Char → Bool) (rest : List Char) : Bool :=
  (List.range rest.length).any fun k =>
    !(rest.take k).isEmpty && (rest.take k).all isDomainChar &&
      (match rest.drop k with
       | c :: t => c == '.' && decide (2 ≤ t.length) && t.all tldChar
       | [] => false)

/-- The anchored pattern `^L+@D+\.T{2,}$` of
`EmailValidationService.email_pattern` (main.py:182-184), with the
top-level class as a parameter; since none of the three classes contains
`@`, the pattern matches iff the string splits at an `@` into a non-empty
local-character run and a `domainTail`. -/
def emailShape (tldChar : Char → Bool) (cs : List Char) : Bool :=
  (List.range cs.length).any fun i =>
    match cs.drop i with
    | c :: rest =>
      c == '@' && !(cs.take i).isEmpty && (cs.take i).all isLocalChar &&
        domainTail tldChar rest
    | [] => false

/-- `EmailValidationService.validate_format` (main.py:186-190). -/
def validate_format (email : String) : Bool :=
  if email.isEmpty || (pyStrip email).isEmpty then false
  else emailShape isTldChar (pyStrip email).toList

/-- Modelled from the claim's words for comparison with the code: the
same shape but with a final dot-separated label of at least two
alphabetic characters. -/
def specFormatOk (email : String) : Bool :=
  !(pyStrip email).isEmpty && emailShape Char.isAlpha (pyStrip email).toList

/-- Outcome of the MX-record resolution in `validate_domain`
(main.py:200): a record set of a given size, or one of the caught
exception classes. -/
inductive DnsOutcome where
  | records (n : Nat)
  | nxdomain
  | noanswer
  | dnsTimeout
  | failure
  deriving Repr, DecidableEq

/-- `email.split("@")[1]` (main.py:198). -/
def domainOf (email : String) : String :=
  (email.splitOn "@").getD 1 ""

/-- `EmailValidationService.validate_domain` (main.py:192-207), with the
resolver passed in as `dns`. -/
def validate_domain (dns : String → DnsOutcome) (email : String) : Bool :=
  if !validate_format email then false
  else
    match dns (domainOf email) with
    | .records n => decide (0 < n)
    | _ => false

/-- `EmailValidationService.validate_email` (main.py:209-215). -/
def validate_email (dns : String → DnsOutcome) (email : String)
    (check_domain : Bool) : Bool :=
  if !validate_format email then false
  else if check_domain then validate_domain dns email
  else true

/-- Python word character (ASCII): `[a-zA-Z0-9_]`. -/
def isWordChar (c : Char) : Bool := c.isAlphanum || c == '_'

/-- `\b` between two adjacent positions: exactly one side is a word
character (string ends count as non-word). -/
def wordBoundary (a b : Option Char) : Bool :=
  (match a with | none => false | some c => isWordChar c) !=
    (match b with | none => false | some c => isWordChar c)

/-- Character class `[a-zA-Z0-9._]` shared by the Instagram and Facebook
username groups (main.py:250-253). -/
def igUserChar (c : Char) : Bool := c.isAlphanum || c == '.' || c == '_'

/-- Character class `[a-zA-Z0-9._-]` of the LinkedIn name group
(main.py:254). -/
def liUserChar (c : Char) : Bool := c.isAlphanum || c == '.' || c == '_' || c == '-'

/-- Match of a social pattern anchored at the start of `cs`, reduced to
its capture: the literal host text followed by a non-empty maximal run of
username characters.  The optional `(?:https?://)?(?:www\.)?` prefix of
the source patterns never changes the captured group, and (because no
prefix variant contains the host's first letter) never lets a later host
occurrence produce the first capture, so the leftmost capture of the full
pattern is the capture at the leftmost host occurrence. -/
def hostCapture (host : String) (userChar : Char → Bool) (cs : List Char) :
    Option String :=
  let h := host.toList
  if h.isPrefixOf cs then
    let u := (cs.drop h.length).takeWhile userChar
    if u.isEmpty then none else some (String.mk u)
  else none

/-- Anchored match of the Instagram pattern (main.py:250-252), reduced to
its capture. -/
def igAt (cs : List Char) : Option String :=
  hostCapture "instagram.com/" igUserChar cs

/-- Anchored match of the Facebook pattern (main.py:253), reduced to its
capture. -/
def fbAt (cs : List Char) : Option String :=
  hostCapture "facebook.com/" igUserChar cs

/-- Anchored match of the LinkedIn pattern (main.py:254), reduced to its
capture: after the host, the `(?:company|in)/` alternation tries
`company/` then `in/`, then captures a non-empty run of name
characters. -/
def liAt (cs : List Char) : Option String :=
  let h := "linkedin.com/".toList
  if h.isPrefixOf cs then
    let rest := cs.drop h.length
    if "company/".toList.isPrefixOf rest then
      let u := (rest.drop 8).takeWhile liUserChar
      if u.isEmpty then none else some (String.mk u)
    else if "in/".toList.isPrefixOf rest then
      let u := (rest.drop 3).takeWhile liUserChar
      if u.isEmpty then none else some (String.mk u)
    else none
  else none

/-- `re.findall(...)[0]` for the social patterns: scan start positions
left to right and return the first anchored capture. -/
def scanFirst (p : List Char → Option String) : List Char → Option String
  | [] => p []
  | c :: rest =>
    match p (c :: rest) with
    | some r => some r
    | none => scanFirst p rest

/-- Backtracking search for the extent of `T{2,}\b` after the dot of the
email pattern: try lengths from the given bound (the maximal `T`-run
length) downward, keeping the first length `≥ 2` whose following position
is a word boundary. -/
def bestTld (afterDot : List Char) : Nat → Option Nat
  | 0 => none
  | 1 => none
  | l + 2 =>
    if wordBoundary (afterDot.get? (l + 1)) (afterDot.get? (l + 2)) then some (l + 2)
    else bestTld afterDot (l + 1)

/-- Backtracking search for the split of `D+ \. T{2,}\b` after the `@`:
try the dot position from the given bound (the maximal `D`-run length)
downward; at each candidate the next character must be a literal dot and
the tail must admit a `T{2,}\b` extent.  Returns the consumed domain
length and the top-level label length. -/
def bestDot (afterAt : List Char) : Nat → Option (Nat × Nat)
  | 0 => none
  | c + 1 =>
    if afterAt.get? (c + 1) == some '.' then
      let afterDot := afterAt.drop (c + 2)
      match bestTld afterDot (afterDot.takeWhile isTldChar).length with
      | some l => some (c + 1, l)
      | none => bestDot afterAt c
    else bestDot afterAt c

/-- Anchored match of the email pattern
`\b[A-Za-z0-9._%+-]+@[A-Za-z0-9.-]+\.[A-Z|a-z]{2,}\b` (main.py:243) at
the start of `cs`, with `prev` the character before `cs`: the local run
is maximal (no local character can match the literal `@`), then the
domain split and label extent are found by the backtracking searches.
Returns the full matched text. -/
def emailAt (prev : Option Char) (cs : List Char) : Option String :=
  let lrun := cs.takeWhile isLocalChar
  if lrun.isEmpty then none
  else if !wordBoundary prev cs.head? then none
  else
    match cs.drop lrun.length with
    | '@' :: afterAt =>
      match bestDot afterAt (afterAt.takeWhile isDomainChar).length with
      | some (k, l) =>
        some (String.mk (lrun ++ '@' :: (afterAt.take k ++ '.' :: (afterAt.drop (k + 1)).take l)))
      | none => none
    | _ => none

/-- `re.findall(email_pattern, content)[0]`: scan start positions left to
right, tracking the previous character for the leading `\b`. -/
def scanEmail : Option Char → List Char → Option String
  | _, [] => none
  | prev, c :: rest =>
    match emailAt prev (c :: rest) with
    | some m => some m
    | none => scanEmail (some c) rest

/-- The pure extraction body of `WebsiteScraperService.scrape_website`
(main.py:242-271) applied to fetched page text: first email match, and
first capture of each social pattern normalized to its canonical URL; the
LinkedIn capture is always rewritten under `company/`. -/
def extractContacts (content : String) : ScrapeResult :=
  let cs := content.toList
  { email := scanEmail none cs
    instagram := (scanFirst igAt cs).map (fun u => "https://instagram.com/" ++ u)
    facebook := (scanFirst fbAt cs).map (fun u => "https://facebook.com/" ++ u)
    linkedin := (scanFirst liAt cs).map (fun u => "https://linkedin.com/company/" ++ u) }

/-- The scheme fix-up of `scrape_website` (main.py:232-233). -/
def fixScheme (url : String) : String :=
  if url.startsWith "http://" || url.startsWith "https://" then url
  else "https://" ++ url

/-- `WebsiteScraperService.scrape_website` (main.py:219-276) with the
page fetch passed in: `fetch` returns `none` when `requests.get` or
`raise_for_status` raises, in which case the `except` clause returns the
still-empty result dict. -/
def scrape_website (fetch : String → Option String) (url : String) : ScrapeResult :=
  match fetch (fixScheme url) with
  | none => {}
  | some content => extractContacts content

/-- Outcome of the `requests.head` probe in the link verifier: the two
caught exception classes, or a response with final status and final
URL. -/
inductive HeadOutcome where
  | netTimeout
  | reqError
  | response (statusCode : Nat) (finalUrl : String)
  deriving Repr, DecidableEq

/-- Python substring containment (`needle in hay`) on char lists. -/
def listContains (needle : List Char) : List Char → Bool
  | [] => needle.isEmpty
  | c :: rest => needle.isPrefixOf (c :: rest) || listContains needle rest

/-- Python substring containment on strings. -/
def strContains (hay needle : String) : Bool :=
  listContains needle.toList hay.toList

/-- `LinkVerificationService.verify_instagram` (main.py:111-143), with
the probe outcome passed in.  The second component counts the
`requests.head` calls the executed path issues (0 or 1), so that the
blank-input early return is visibly probe-free. -/
def verify_instagram (head : String → HeadOutcome) (url : String) : Bool × Nat :=
  if url.isEmpty || (pyStrip url).isEmpty then (false, 0)
  else
    match head url with
    | .netTimeout => (false, 1)
    | .reqError => (false, 1)
    | .response status finalUrl =>
      if 400 ≤ status then (false, 1)
      else
        let f := pyLower finalUrl
        if strContains f "accounts/login" || f.endsWith "instagram.com/" then (false, 1)
        else (true, 1)

/-- `LinkVerificationService.verify_facebook` (main.py:145-175), with the
probe outcome passed in; same shape as Instagram with the broader
`"login"` substring test. -/
def verify_facebook (head : String → HeadOutcome) (url : String) : Bool × Nat :=
  if url.isEmpty || (pyStrip url).isEmpty then (false, 0)
  else
    match head url with
    | .netTimeout => (false, 1)
    | .reqError => (false, 1)
    | .response status finalUrl =>
      if 400 ≤ status then (false, 1)
      else
        let f := pyLower finalUrl
        if strContains f "login" || f.endsWith "facebook.com/" then (false, 1)
        else (true, 1)

/-- `row[0].strip().lower() if row[0] else ""` (main.py:399), extended
with `""` for a row with no cells. -/
def rowKey (row : List String) : String :=
  match row.head? with
  | none => ""
  | some c => if c.isEmpty then "" else pyLower (pyStrip c)

/-- The row loop of `GoogleSheetsService.remove_duplicates`
(main.py:394-410): returns the kept data rows and the number of removed
duplicates.  Rows with no cells are skipped without counting; rows whose
key is empty are always kept; otherwise the first occurrence of a key is
kept and later ones are counted as duplicates. -/
def dedupAux (seen : List String) : List (List String) → List (List String) × Nat
  | [] => ([], 0)
  | row :: rest =>
    if row.isEmpty then dedupAux seen rest
    else if (rowKey row).isEmpty then
      (row :: (dedupAux seen rest).1, (dedupAux seen rest).2)
    else if rowKey row ∈ seen then
      ((dedupAux seen rest).1, (dedupAux seen rest).2 + 1)
    else
      (row :: (dedupAux (rowKey row :: seen) rest).1,
        (dedupAux (rowKey row :: seen) rest).2)

/-- `GoogleSheetsService.remove_duplicates` (main.py:374-425) as a pure
state transformer: `none` means the sheet is left untouched (empty or
header-only table, or no duplicate was found), `some rows` means the
sheet is cleared and rewritten with `rows`. -/
def remove_duplicates (all_values : List (List String)) :
    Option (List (List String)) :=
  match all_values with
  | [] => none
  | [_] => none
  | headers :: data =>
    if (dedupAux [] data).2 = 0 then none
    else some (headers :: (dedupAux [] data).1)

/-- Modelled from the claim (C7), amended: keep each data row whose
first-column key is empty, and the first occurrence of each non-empty
key, where "first" is judged against the accumulated list of earlier
rows; rows with no cells at all are dropped. -/
def firstOccurrenceKeep (prev : List (List String)) :
    List (List String) → List (List String)
  | [] => []
  | row :: rest =>
    if row.isEmpty then firstOccurrenceKeep (prev ++ [row]) rest
    else if (rowKey row).isEmpty then
      row :: firstOccurrenceKeep (prev ++ [row]) rest
    else if prev.any (fun q => rowKey q == rowKey row) then
      firstOccurrenceKeep (prev ++ [row]) rest
    else
      row :: firstOccurrenceKeep (prev ++ [row]) rest

/-- The non-empty first-column keys of the data rows, in order; the table
is duplicate-free exactly when this list has no repeats. -/
def dedupKeys (data : List (List String)) : List String :=
  data.filterMap fun r =>
    if r.isEmpty || (rowKey r).isEmpty then none else some (rowKey r)

/-- The column-locating loop of `verify_and_clean_links`
(main.py:476-480): the index is reassigned on every hit, so the last
matching header wins. -/
def findColLast (headers : List String) (name : String) : Option Nat :=
  (List.range headers.length).foldl
    (fun acc i => if pyLower (headers.getD i "") == name then some i else acc) none

/-- `while len(row) < len(headers): row.append("")` (main.py:494-495). -/
def padRow (n : Nat) (row : List String) : List String :=
  row ++ List.replicate (n - row.length) ""

/-- One platform's cell check in `verify_and_clean_links`
(main.py:500-519): if the column exists, is within the row, and holds a
non-blank URL the verifier rejects, the cell is cleared and counted. -/
def cleanCell (verify : String → Bool) (col : Option Nat) (row : List String) :
    List String × Nat :=
  match col with
  | none => (row, 0)
  | some i =>
    if i < row.length then
      let url := pyStrip (row.getD i "")
      if !url.isEmpty && !verify url then (row.set i "", 1) else (row, 0)
    else (row, 0)

/-- The per-row body of `verify_and_clean_links` (main.py:492-521): pad
to the header width, then check the Instagram cell, then the Facebook
cell. -/
def cleanRow (vIG vFB : String → Bool) (igCol fbCol : Option Nat) (n : Nat)
    (row : List String) : List String × Nat :=
  ((cleanCell vFB fbCol (cleanCell vIG igCol (padRow n row)).1).1,
    (cleanCell vIG igCol (padRow n row)).2 +
      (cleanCell vFB fbCol (cleanCell vIG igCol (padRow n row)).1).2)

/-- `GoogleSheetsService.verify_and_clean_links` (main.py:461-536) as a
pure state transformer over the row set, with the two verifiers passed
in: `none` means no clear/update call is issued, `some rows` means the
sheet is cleared and rewritten with `rows`. -/
def verify_and_clean_links (vIG vFB : String → Bool)
    (all_values : List (List String)) : Option (List (List String)) :=
  match all_values with
  | [] => none
  | [_] => none
  | headers :: data =>
    let igCol := findColLast headers "instagram"
    let fbCol := findColLast headers "facebook"
    if igCol = none ∧ fbCol = none then none
    else
      let processed := data.map (cleanRow vIG vFB igCol fbCol headers.length)
      if (processed.map (fun r => r.2)).sum = 0 then none
      else some (headers :: processed.map (fun r => r.1))

/-- Modelled from the claim (C8): one target cell is already clean when
it is blank after trimming or the verifier accepts it. -/
def cellOk (verify : String → Bool) (col : Option Nat) (row : List String) : Prop :=
  match col with
  | none => True
  | some i => pyStrip (row.getD i "") = "" ∨ verify (pyStrip (row.getD i "")) = true

/-- Modelled from the claim (C8): a data row is already clean when both
target cells are. -/
def linksRowOk (vIG vFB : String → Bool) (igCol fbCol : Option Nat)
    (row : List String) : Prop :=
  cellOk vIG igCol row ∧ cellOk vFB fbCol row

/-- The character before position `i` of `cs`, given the character `prev`
before `cs` itself. -/
def ctxAt (prev : Option Char) (cs : List Char) : Nat → Option Char
  | 0 => prev
  | i + 1 => cs.get? i

/-!  ## Theorems  -/

/-- C1: the claim says `_filter_new_leads` is a pure, total transformation
that never throws and only skips malformed records.  The code violates
this: building the name set reads `lead.Name`, an attribute the
`ExistingLead` model (which defines `Business` and `Phone`) does not
have, so the call raises `AttributeError` for every non-empty `existing`
list; this theorem evaluates the embedded code at such an input. -/
theorem c1_filter_new_leads_throws :
    filter_new_leads []
        [{ Business := some "Acme Plumbing", Phone := some "+44 1234 567890" }] =
      .error "AttributeError: ExistingLead object has no attribute Name" := rfl

/-- C5: the claim says a candidate whose normalized phone matches an
existing lead's normalized phone is rejected even when the names differ.
The code never gets that far: with any non-empty `existing` list the
`lead.Name` access raises `AttributeError` before the candidate loop, so
the phone-colliding candidate is not rejected — the whole call throws. -/
theorem c5_composite_key_throws :
    filter_new_leads
        [{ title := some (some "Different Co"), phone := some (some "441234567890") }]
        [{ Business := some "Acme Plumbing", Phone := some "+44 1234 567890" }] =
      .error "AttributeError: ExistingLead object has no attribute Name" := rfl

/-- C2: the claim says the wait loop stops on any terminal status
(SUCCEEDED, FAILED, ABORTED).  The loop's only exit test is
`status.status == "SUCCEEDED"`, so on a job that reports FAILED (or
ABORTED) forever the loop never returns, for any amount of fuel. -/
theorem c2_poll_ignores_failed :
    isTerminalStatus "FAILED" = true ∧ isTerminalStatus "ABORTED" = true ∧
    (∀ s : ApifyJobData, pollOnce s = none ↔ s.status ≠ "SUCCEEDED") ∧
    (∀ n fuel,
      wait_for_completion (fun _ => ⟨"job", "FAILED", none⟩) n fuel = none) ∧
    (∀ n fuel,
      wait_for_completion (fun _ => ⟨"job", "ABORTED", none⟩) n fuel = none) := by
  refine ⟨rfl, rfl, ?_, ?_, ?_⟩
  · intro s
    unfold pollOnce
    constructor
    · intro h hs
      rw [hs] at h
      simp at h
    · intro h
      simp only [ite_eq_right_iff]
      intro hb
      exact absurd (by simpa using hb) h
  · intro n fuel
    induction fuel generalizing n with
    | zero => rfl
    | succ k ih =>
      simpa only [wait_for_completion, pollOnce, show ("FAILED" == "SUCCEEDED") = false from rfl,
        if_false] using ih (n + 1)
  · intro n fuel
    induction fuel generalizing n with
    | zero => rfl
    | succ k ih =>
      simpa only [wait_for_completion, pollOnce, show ("ABORTED" == "SUCCEEDED") = false from rfl,
        if_false] using ih (n + 1)

/-- C9: the Link Verifier and Contact Extractor fail closed: a blank or
whitespace-only URL yields `false` with zero probes issued, a timeout or
transport error yields `false`, and a failed page fetch yields the
all-empty contact bundle instead of an error. -/
theorem c9_fail_closed :
    (∀ (head : String → HeadOutcome) (url : String), pyStrip url = "" →
      verify_instagram head url = (false, 0) ∧ verify_facebook head url = (false, 0)) ∧
    (∀ (head : String → HeadOutcome) (url : String),
      (head url = .netTimeout ∨ head url = .reqError) →
      (verify_instagram head url).1 = false ∧ (verify_facebook head url).1 = false) ∧
    (∀ (fetch : String → Option String) (url : String), fetch (fixScheme url) = none →
      scrape_website fetch url =
        { email := none, instagram := none, facebook := none, linkedin := none }) := by
  refine ⟨?_, ?_, ?_⟩
  · intro head url h
    have he : (pyStrip url).isEmpty = true := by rw [h]; rfl
    constructor
    · simp [verify_instagram, he]
    · simp [verify_facebook, he]
  · intro head url h
    constructor
    · unfold verify_instagram
      split
      · rfl
      · rcases h with h | h <;> rw [h]
    · unfold verify_facebook
      split
      · rfl
      · rcases h with h | h <;> rw [h]
  · intro fetch url h
    unfold scrape_website
    rw [h]

/-- C9 witness: the fail-closed theorem applied at a whitespace URL, a
timing-out probe, and a failing fetch. -/
theorem c9_fail_closed_witness :
    (verify_instagram (fun _ => .netTimeout) "  " = (false, 0) ∧
      verify_facebook (fun _ => .netTimeout) "  " = (false, 0)) ∧
    ((verify_instagram (fun _ => .netTimeout) "x").1 = false ∧
      (verify_facebook (fun _ => .netTimeout) "x").1 = false) ∧
    scrape_website (fun _ => none) "example.com" =
      { email := none, instagram := none, facebook := none, linkedin := none } :=
  ⟨c9_fail_closed.1 (fun _ => .netTimeout) "  " (by decide),
    c9_fail_closed.2.1 (fun _ => .netTimeout) "x" (Or.inl rfl),
    c9_fail_closed.2.2 (fun _ => none) "example.com" rfl⟩

/-- C10: enrichment never modifies a lead's identity or location fields:
the output is pointwise field-preserving on `title`, `phone`, `address`
and `website`, a lead with a falsy website is returned entirely
unchanged, and the contact fields of the others are reassigned from the
scrape result (or to `""`). -/
theorem c10_enrich_frame :
    ∀ (scraper : String → ScrapeResult) (leads : List Lead),
      (enrich_leads scraper leads).length = leads.length ∧
      ∀ i l, leads.get? i = some l →
        ∃ l', (enrich_leads scraper leads).get? i = some l' ∧
          l'.title = l.title ∧ l'.phone = l.phone ∧ l'.address = l.address ∧
          l'.website = l.website ∧
          ((l.website = none ∨ l.website = some "") → l' = l) ∧
          (∀ w, l.website = some w → w ≠ "" →
            l' = { l with
              email := (scraper w).email.getD ""
              instagram := (scraper w).instagram.getD ""
              facebook := (scraper w).facebook.getD ""
              linkedin := (scraper w).linkedin.getD "" }) := by
  intro scraper leads
  constructor
  · simp [enrich_leads]
  · intro i l hl
    unfold enrich_leads
    rw [List.get?_map, hl, Option.map_some']
    refine ⟨_, rfl, ?_⟩
    split
    next hnone =>
      refine ⟨rfl, rfl, rfl, rfl, fun _ => rfl, ?_⟩
      intro w' hw' _
      rw [hnone] at hw'
      exact Option.noConfusion hw'
    next w hsome =>
      split
      next hwe =>
        have hw0 : w = "" := (String.isEmpty_iff w).mp hwe
        refine ⟨rfl, rfl, rfl, rfl, fun _ => rfl, ?_⟩
        intro w' hw' hne
        rw [hsome] at hw'
        have hv : w = w' := by injection hw'
        exact absurd (by rw [← hv]; exact hw0) hne
      next hwe =>
        refine ⟨rfl, rfl, rfl, rfl, ?_, ?_⟩
        · rintro (h | h)
          · rw [hsome] at h
            exact Option.noConfusion h
          · rw [hsome] at h
            have hv : w = "" := by injection h
            exact absurd (show w.isEmpty = true by rw [hv]; rfl) hwe
        · intro w' hw' _
          rw [hsome] at hw'
          have hv : w = w' := by injection hw'
          subst hv
          rfl

theorem domainTail_iff (tc : Char → Bool) (rest : List Char) :
    domainTail tc rest = true ↔
      ∃ d t, rest = d ++ '.' :: t ∧ d ≠ [] ∧ d.all isDomainChar = true ∧
        2 ≤ t.length ∧ t.all tc = true := by
  unfold domainTail
  rw [List.any_eq_true]
  constructor
  · rintro ⟨k, _, hb⟩
    rcases hdrop : rest.drop k with _ | ⟨c, t⟩
    · rw [hdrop] at hb
      simp at hb
    · rw [hdrop] at hb
      simp only [Bool.and_eq_true, beq_iff_eq, Bool.not_eq_true',
        decide_eq_true_eq] at hb
      obtain ⟨⟨hne, hall⟩, ⟨hc, hlen⟩, htld⟩ := hb
      refine ⟨rest.take k, t, ?_, ?_, hall, hlen, htld⟩
      · conv_lhs => rw [← List.take_append_drop k rest]
        rw [hdrop, hc]
      · intro hh
        rw [hh] at hne
        cases hne
  · rintro ⟨d, t, hrest, hdne, hdall, hlen, htld⟩
    refine ⟨d.length, ?_, ?_⟩
    · rw [List.mem_range, hrest]
      simp
    · rw [hrest, List.take_left, List.drop_left]
      simp only [Bool.and_eq_true, beq_iff_eq, Bool.not_eq_true',
        decide_eq_true_eq]
      refine ⟨⟨?_, hdall⟩, ⟨by trivial, hlen⟩, htld⟩
      cases d with
      | nil => exact absurd rfl hdne
      | cons a l => rfl

theorem emailShape_iff (tc : Char → Bool) (cs : List Char) :
    emailShape tc cs = true ↔
      ∃ l d t, cs = l ++ '@' :: (d ++ '.' :: t) ∧ l ≠ [] ∧
        l.all isLocalChar = true ∧ d ≠ [] ∧ d.all isDomainChar = true ∧
        2 ≤ t.length ∧ t.all tc = true := by
  unfold emailShape
  rw [List.any_eq_true]
  constructor
  · rintro ⟨i, _, hb⟩
    rcases hdrop : cs.drop i with _ | ⟨c, rest⟩
    · rw [hdrop] at hb
      simp at hb
    · rw [hdrop] at hb
      simp only [Bool.and_eq_true, beq_iff_eq, Bool.not_eq_true'] at hb
      obtain ⟨⟨⟨hc, hne⟩, hall⟩, hdt⟩ := hb
      rw [domainTail_iff] at hdt
      obtain ⟨d, t, hrest, hdne, hdall, hlen, htld⟩ := hdt
      refine ⟨cs.take i, d, t, ?_, ?_, hall, hdne, hdall, hlen, htld⟩
      · conv_lhs => rw [← List.take_append_drop i cs]
        rw [hdrop, hc, hrest]
      · intro hh
        rw [hh] at hne
        cases hne
  · rintro ⟨l, d, t, hcs, hlne, hlall, hdne, hdall, hlen, htld⟩
    refine ⟨l.length, ?_, ?_⟩
    · rw [List.mem_range, hcs]
      simp
    · rw [hcs, List.drop_left, List.take_left]
      simp only [Bool.and_eq_true, beq_iff_eq, Bool.not_eq_true']
      refine ⟨⟨⟨by trivial, ?_⟩, hlall⟩, ?_⟩
      · cases l with
        | nil => exact absurd rfl hlne
        | cons a l => rfl
      · rw [domainTail_iff]
        exact ⟨d, t, rfl, hdne, hdall, hlen, htld⟩

theorem validate_format_eq (e : String) :
    validate_format e =
      (!(pyStrip e).isEmpty && emailShape isTldChar (pyStrip e).toList) := by
  unfold validate_format
  rcases he : e.isEmpty with _ | _
  · rcases hs : (pyStrip e).isEmpty with _ | _
    · simp [he, hs]
    · simp [he, hs]
  · have he' : e = "" := (String.isEmpty_iff e).mp he
    subst he'
    decide

theorem string_isEmpty_false_iff (s : String) : s.isEmpty = false ↔ s ≠ "" := by
  constructor
  · intro h hh
    rw [hh] at h
    exact absurd h (by decide)
  · intro h
    rcases hs : s.isEmpty with _ | _
    · rfl
    · exact absurd ((String.isEmpty_iff s).mp hs) h

/-- C4 (counterexample): the claim says the format check accepts exactly
the shapes whose final dot-separated label has at least two alphabetic
characters.  The `|` inside the pattern's `[A-Z|a-z]` class is a literal
pipe, so the code also accepts `"a@b.||"`, whose final label is not
alphabetic. -/
theorem c4_pipe_counterexample :
    validate_format "a@b.||" = true ∧ specFormatOk "a@b.||" = false := by decide

/-- C4 (amended): `validate_format` accepts a string iff, after trimming,
it splits as a non-empty local part of local characters, an `@`, a
non-empty domain of domain characters, a dot, and a final label of at
least two characters each of which is a letter or a literal `|` (the
claim said letters only); `"not-an-email"` is rejected and
`"user@example.com"` accepted with no resolver involved, and with
`check_domain = false` the result is format validity alone for every
resolver behaviour. -/
theorem c4_validate_format :
    (∀ e : String, validate_format e = true ↔
      (pyStrip e ≠ "" ∧ ∃ l d t : List Char,
        (pyStrip e).toList = l ++ '@' :: (d ++ '.' :: t) ∧
        l ≠ [] ∧ l.all isLocalChar = true ∧
        d ≠ [] ∧ d.all isDomainChar = true ∧
        2 ≤ t.length ∧ t.all isTldChar = true)) ∧
    validate_format "not-an-email" = false ∧
    validate_format "user@example.com" = true ∧
    (∀ (dns : String → DnsOutcome) (e : String),
      validate_email dns e false = validate_format e) := by
  refine ⟨?_, by decide, by decide, ?_⟩
  · intro e
    rw [validate_format_eq, Bool.and_eq_true, Bool.not_eq_true', emailShape_iff]
    exact and_congr (string_isEmpty_false_iff (pyStrip e)) Iff.rfl
  · intro dns e
    unfold validate_email
    rcases h : validate_format e with _ | _ <;> simp [h]

theorem dedupAux_fst_eq (data : List (List String)) :
    ∀ seen prev,
      (∀ k : String, k ∈ seen ↔ (k.isEmpty = false ∧ ∃ q ∈ prev, rowKey q = k)) →
      (dedupAux seen data).1 = firstOccurrenceKeep prev data := by
  induction data with
  | nil =>
    intro seen prev _
    rfl
  | cons row rest ih =>
    intro seen prev hinv
    have hext : ∀ k : String,
        (k.isEmpty = false ∧ ∃ q ∈ prev, rowKey q = k) →
        (k.isEmpty = false ∧ ∃ q ∈ prev ++ [row], rowKey q = k) := by
      rintro k ⟨hk, q, hq, hr⟩
      exact ⟨hk, q, List.mem_append_left _ hq, hr⟩
    have hnew : ∀ k : String, (∃ q ∈ ([row] : List (List String)), rowKey q = k) →
        k = rowKey row := by
      rintro k ⟨q, hq, hr⟩
      rw [← hr, List.mem_singleton.mp hq]
    rcases hre : row.isEmpty with _ | _
    · rcases hk0 : (rowKey row).isEmpty with _ | _
      · by_cases hmem : rowKey row ∈ seen
        · obtain ⟨hne, q, hq, hr⟩ := (hinv _).mp hmem
          have hany : (prev.any fun q => rowKey q == rowKey row) = true :=
            List.any_eq_true.mpr ⟨q, hq, beq_iff_eq.mpr hr⟩
          have hrec := ih seen (prev ++ [row]) (fun k => by
            constructor
            · intro hk
              exact hext k ((hinv k).mp hk)
            · rintro ⟨hk1, q', hq', hr'⟩
              rcases List.mem_append.mp hq' with h | h
              · exact (hinv k).mpr ⟨hk1, q', h, hr'⟩
              · rw [hnew k ⟨q', h, hr'⟩]
                exact hmem)
          simp [dedupAux, firstOccurrenceKeep, hre, hk0, hmem, hany, hrec]
        · have hany : (prev.any fun q => rowKey q == rowKey row) = false := by
            rcases h : prev.any (fun q => rowKey q == rowKey row) with _ | _
            · rfl
            · obtain ⟨q, hq, hbeq⟩ := List.any_eq_true.mp h
              exact absurd ((hinv _).mpr ⟨hk0, q, hq, beq_iff_eq.mp hbeq⟩) hmem
          have hrec := ih (rowKey row :: seen) (prev ++ [row]) (fun k => by
            constructor
            · intro hk
              rcases List.mem_cons.mp hk with hk | hk
              · subst hk
                exact ⟨hk0, row,
                  List.mem_append_right _ (List.mem_singleton.mpr rfl), rfl⟩
              · exact hext k ((hinv k).mp hk)
            · rintro ⟨hk1, q', hq', hr'⟩
              rcases List.mem_append.mp hq' with h | h
              · exact List.mem_cons_of_mem _ ((hinv k).mpr ⟨hk1, q', h, hr'⟩)
              · rw [hnew k ⟨q', h, hr'⟩]
                exact List.mem_cons_self _ _)
          simp [dedupAux, firstOccurrenceKeep, hre, hk0, hmem, hany, hrec]
      · have hrec := ih seen (prev ++ [row]) (fun k => by
          constructor
          · intro hk
            exact hext k ((hinv k).mp hk)
          · rintro ⟨hk1, q', hq', hr'⟩
            rcases List.mem_append.mp hq' with h | h
            · exact (hinv k).mpr ⟨hk1, q', h, hr'⟩
            · exfalso
              have hkk := hnew k ⟨q', h, hr'⟩
              rw [hkk, hk0] at hk1
              cases hk1)
        simp [dedupAux, firstOccurrenceKeep, hre, hk0, hrec]
    · have hrownil : row = [] := List.isEmpty_iff.mp hre
      have hrec := ih seen (prev ++ [row]) (fun k => by
        constructor
        · intro hk
          exact hext k ((hinv k).mp hk)
        · rintro ⟨hk1, q', hq', hr'⟩
          rcases List.mem_append.mp hq' with h | h
          · exact (hinv k).mpr ⟨hk1, q', h, hr'⟩
          · exfalso
            have hkk := hnew k ⟨q', h, hr'⟩
            rw [hrownil] at hkk
            rw [hkk] at hk1
            cases hk1)
      simp [dedupAux, firstOccurrenceKeep, hre, hrec]

/-- C7 (counterexample): the claim says rows whose first column is empty
are always retained and nothing but later duplicate occurrences is
dropped.  The loop's `if not row: continue` silently drops a data row
with no cells at all: on the table below the written-back rows omit the
empty row entirely. -/
theorem c7_empty_row_dropped :
    remove_duplicates [["Name"], [], ["a", "1"], ["a", "2"]] =
        some [["Name"], ["a", "1"]] ∧
      ([] : List String) ∉ [["Name"], ["a", "1"]] := by decide

/-- C7 (amended): whenever duplicate removal rewrites the table, the
rewritten set is exactly the header followed, in original order, by
every data row with at least one cell whose first-column key is empty
together with the first occurrence of each distinct non-empty key
(compared case-insensitively after trimming); later occurrences of an
already-seen key and rows with no cells at all are dropped. -/
theorem c7_keeps_first_occurrences :
    ∀ (h : List String) (data out : List (List String)),
      remove_duplicates (h :: data) = some out →
      out = h :: firstOccurrenceKeep [] data := by
  intro h data out hrun
  rcases data with _ | ⟨r, rest⟩
  · exact Option.noConfusion hrun
  · have hfst : (dedupAux [] (r :: rest)).1 = firstOccurrenceKeep [] (r :: rest) :=
      dedupAux_fst_eq (r :: rest) [] [] (fun k => by simp)
    have hrun' : (if (dedupAux [] (r :: rest)).2 = 0 then none
        else some (h :: (dedupAux [] (r :: rest)).1)) = some out := hrun
    rcases hif : (dedupAux [] (r :: rest)).2 with _ | n
    · rw [hif] at hrun'
      simp at hrun'
    · rw [hif] at hrun'
      simp at hrun'
      rw [← hrun', hfst]

/-- C7 witness: the amended duplicate-removal theorem applied at a
concrete table with one duplicate. -/
theorem c7_keeps_first_occurrences_witness :
    remove_duplicates [["Name"], ["b"], ["a"], ["a"]] =
        some [["Name"], ["b"], ["a"]] ∧
      [["Name"], ["b"], ["a"]] =
        ["Name"] :: firstOccurrenceKeep [] [["b"], ["a"], ["a"]] :=
  ⟨by decide,
    c7_keeps_first_occurrences ["Name"] [["b"], ["a"], ["a"]]
      [["Name"], ["b"], ["a"]] (by decide)⟩

theorem dedupAux_length (data : List (List String)) :
    ∀ seen, (dedupAux seen data).1.length + (dedupAux seen data).2 ≤ data.length := by
  induction data with
  | nil =>
    intro seen
    simp [dedupAux]
  | cons row rest ih =>
    intro seen
    rcases hre : row.isEmpty with _ | _
    · rcases hk0 : (rowKey row).isEmpty with _ | _
      · by_cases hmem : rowKey row ∈ seen
        · simp only [dedupAux, hre, hk0, hmem]
          have := ih seen
          simp
          omega
        · simp only [dedupAux, hre, hk0, hmem]
          have := ih (rowKey row :: seen)
          simp
          omega
      · simp only [dedupAux, hre, hk0]
        have := ih seen
        simp
        omega
    · simp only [dedupAux, hre]
      have := ih seen
      simp
      omega

theorem dedupKeys_nodup_zero (data : List (List String)) :
    ∀ seen, (∀ k ∈ dedupKeys data, k ∉ seen) → (dedupKeys data).Nodup →
      (dedupAux seen data).2 = 0 := by
  induction data with
  | nil =>
    intro seen _ _
    rfl
  | cons row rest ih =>
    intro seen hdisj hnd
    rcases hre : row.isEmpty with _ | _
    · have hrne : ¬(row = []) := by
        intro hh
        rw [hh] at hre
        cases hre
      rcases hk0 : (rowKey row).isEmpty with _ | _
      · have hkeys : dedupKeys (row :: rest) = rowKey row :: dedupKeys rest := by
          simp [dedupKeys, List.filterMap_cons, hrne, hk0]
        rw [hkeys] at hdisj hnd
        have hmem : rowKey row ∉ seen := hdisj _ (List.mem_cons_self _ _)
        simp only [dedupAux, hre, hk0, hmem]
        simp
        apply ih (rowKey row :: seen)
        · intro k hk hks
          rcases List.mem_cons.mp hks with he | hs
          · exact (List.nodup_cons.mp hnd).1 (he ▸ hk)
          · exact hdisj k (List.mem_cons_of_mem _ hk) hs
        · exact (List.nodup_cons.mp hnd).2
      · have hkeys : dedupKeys (row :: rest) = dedupKeys rest := by
          simp [dedupKeys, List.filterMap_cons, hre, hk0]
        rw [hkeys] at hdisj hnd
        simp only [dedupAux, hre, hk0]
        simp
        exact ih seen hdisj hnd
    · have hrnil : row = [] := List.isEmpty_iff.mp hre
      have hkeys : dedupKeys (row :: rest) = dedupKeys rest := by
        simp [dedupKeys, List.filterMap_cons, hrnil]
      rw [hkeys] at hdisj hnd
      simp only [dedupAux, hre]
      simp
      exact ih seen hdisj hnd

theorem remove_duplicates_none_of_nodup (h : List String)
    (data : List (List String)) (hnd : (dedupKeys data).Nodup) :
    remove_duplicates (h :: data) = none := by
  have hz := dedupKeys_nodup_zero data [] (fun k _ hk => (List.not_mem_nil k) hk) hnd
  rcases data with _ | ⟨r, rest⟩
  · rfl
  · show (if (dedupAux [] (r :: rest)).2 = 0 then none
      else some (h :: (dedupAux [] (r :: rest)).1)) = none
    rw [if_pos hz]

theorem remove_duplicates_some_shrinks (v out : List (List String))
    (hsome : remove_duplicates v = some out) : out.length < v.length := by
  rcases v with _ | ⟨h, data⟩
  · exact Option.noConfusion hsome
  rcases data with _ | ⟨r, rest⟩
  · exact Option.noConfusion hsome
  have hrun' : (if (dedupAux [] (r :: rest)).2 = 0 then none
      else some (h :: (dedupAux [] (r :: rest)).1)) = some out := hsome
  rcases hif : (dedupAux [] (r :: rest)).2 with _ | n
  · rw [hif] at hrun'
    simp at hrun'
  · rw [hif] at hrun'
    simp at hrun'
    have hlen := dedupAux_length (r :: rest) []
    rw [hif] at hlen
    simp at hlen
    rw [← hrun']
    simp
    omega

theorem padRow_getD (n : Nat) (row : List String) (i : Nat) :
    (padRow n row).getD i "" = row.getD i "" := by
  unfold padRow
  rcases lt_or_ge i row.length with h | h
  · exact List.getD_append _ _ _ _ h
  · rw [List.getD_eq_default _ _ h]
    have h2 : (row ++ List.replicate (n - row.length) "").getD i "" =
        (List.replicate (n - row.length) "").getD (i - row.length) "" := by
      simp [List.getD, List.getElem?_append_right h]
    rw [h2]
    rcases lt_or_ge (i - row.length) (n - row.length) with h3 | h3
    · rw [List.getD_eq_getElem _ _ (by simpa using h3)]
      simp
    · exact List.getD_eq_default _ _ (by simpa using h3)

theorem cleanCell_of_ok (v : String → Bool) (col : Option Nat) (r : List String)
    (h : cellOk v col r) : cleanCell v col r = (r, 0) := by
  rcases col with _ | i
  · rfl
  · simp only [cleanCell]
    by_cases hi : i < r.length
    · rw [if_pos hi]
      rcases h with h | h
      · rw [h]
        simp
        intro hh
        exact absurd hh (by decide)
      · simp [h]
        intro _
        simpa [List.getD] using h
    · rw [if_neg hi]

theorem cleanCell_zero (v : String → Bool) (col : Option Nat) (r : List String)
    (h : (cleanCell v col r).2 = 0) :
    cellOk v col r ∧ (cleanCell v col r).1 = r := by
  rcases col with _ | i
  · exact ⟨trivial, rfl⟩
  · simp only [cleanCell] at h ⊢
    by_cases hi : i < r.length
    · rw [if_pos hi] at h ⊢
      by_cases hc : (!(pyStrip (r.getD i "")).isEmpty && !v (pyStrip (r.getD i ""))) = true
      · rw [if_pos hc] at h
        cases h
      · rw [if_neg hc] at h ⊢
        refine ⟨?_, rfl⟩
        have hc' : (!(pyStrip (r.getD i "")).isEmpty) = false ∨
            (!v (pyStrip (r.getD i ""))) = false := by
          rcases hx : !(pyStrip (r.getD i "")).isEmpty with _ | _
          · exact Or.inl rfl
          · rcases hy : !v (pyStrip (r.getD i "")) with _ | _
            · exact Or.inr rfl
            · exact absurd (by rw [hx, hy]; rfl) hc
        rcases hc' with hx | hy
        · left
          rw [Bool.not_eq_false'] at hx
          exact (String.isEmpty_iff _).mp hx
        · right
          rw [Bool.not_eq_false'] at hy
          exact hy
    · rw [if_neg hi] at h ⊢
      refine ⟨?_, rfl⟩
      left
      have hdflt : r.getD i "" = "" := List.getD_eq_default _ _ (le_of_not_lt hi)
      rw [hdflt]
      rfl

theorem cellOk_pad (v : String → Bool) (col : Option Nat) (n : Nat)
    (row : List String) : cellOk v col (padRow n row) ↔ cellOk v col row := by
  rcases col with _ | i
  · exact Iff.rfl
  · show (pyStrip ((padRow n row).getD i "") = "" ∨
        v (pyStrip ((padRow n row).getD i "")) = true) ↔
      (pyStrip (row.getD i "") = "" ∨ v (pyStrip (row.getD i "")) = true)
    rw [padRow_getD]

theorem cleanRow_zero_iff (vIG vFB : String → Bool) (igCol fbCol : Option Nat)
    (n : Nat) (row : List String) :
    (cleanRow vIG vFB igCol fbCol n row).2 = 0 ↔
      linksRowOk vIG vFB igCol fbCol row := by
  unfold cleanRow linksRowOk
  constructor
  · intro h
    obtain ⟨ha, hb⟩ := Nat.add_eq_zero.mp h
    obtain ⟨hokIG, hfst⟩ := cleanCell_zero vIG igCol (padRow n row) ha
    rw [hfst] at hb
    obtain ⟨hokFB, _⟩ := cleanCell_zero vFB fbCol (padRow n row) hb
    exact ⟨(cellOk_pad vIG igCol n row).mp hokIG,
      (cellOk_pad vFB fbCol n row).mp hokFB⟩
  · rintro ⟨hig, hfb⟩
    rw [cleanCell_of_ok vIG igCol (padRow n row) ((cellOk_pad vIG igCol n row).mpr hig)]
    rw [cleanCell_of_ok vFB fbCol (padRow n row) ((cellOk_pad vFB fbCol n row).mpr hfb)]
    rfl

theorem verify_links_none_of_ok (vIG vFB : String → Bool) (h : List String)
    (data : List (List String))
    (hok : ∀ row ∈ data, linksRowOk vIG vFB (findColLast h "instagram")
      (findColLast h "facebook") row) :
    verify_and_clean_links vIG vFB (h :: data) = none := by
  rcases data with _ | ⟨r, rest⟩
  · rfl
  · simp only [verify_and_clean_links]
    by_cases hcol : findColLast h "instagram" = none ∧ findColLast h "facebook" = none
    · rw [if_pos hcol]
    · rw [if_neg hcol]
      have hsum : ((((r :: rest).map (cleanRow vIG vFB (findColLast h "instagram")
          (findColLast h "facebook") h.length)).map (fun rr => rr.2)).sum = 0) := by
        apply List.sum_eq_zero
        intro x hx
        simp only [List.map_map, List.mem_map, Function.comp] at hx
        obtain ⟨row, hrow, hxe⟩ := hx
        rw [← hxe]
        exact (cleanRow_zero_iff vIG vFB _ _ _ row).mpr (hok row hrow)
      rw [if_pos hsum]

theorem verify_links_some_not_ok (vIG vFB : String → Bool) (h : List String)
    (data out : List (List String))
    (hsome : verify_and_clean_links vIG vFB (h :: data) = some out) :
    ∃ row ∈ data, ¬ linksRowOk vIG vFB (findColLast h "instagram")
      (findColLast h "facebook") row := by
  by_contra hcon
  push_neg at hcon
  rw [verify_links_none_of_ok vIG vFB h data hcon] at hsome
  exact Option.noConfusion hsome

/-- C8: write-avoidance of both maintenance operations: a table whose
non-empty first-column keys are already pairwise distinct triggers no
clear/rewrite, a rewrite (when it happens) has strictly fewer rows than
it read, a table whose Instagram/Facebook cells are all blank-or-valid
triggers no clear/rewrite, and a rewrite happens only when at least one
row has a non-blank invalid target cell. -/
theorem c8_write_avoidance :
    (∀ (h : List String) (data : List (List String)),
      (dedupKeys data).Nodup → remove_duplicates (h :: data) = none) ∧
    (∀ (v out : List (List String)),
      remove_duplicates v = some out → out.length < v.length) ∧
    (∀ (vIG vFB : String → Bool) (h : List String) (data : List (List String)),
      (∀ row ∈ data, linksRowOk vIG vFB (findColLast h "instagram")
        (findColLast h "facebook") row) →
      verify_and_clean_links vIG vFB (h :: data) = none) ∧
    (∀ (vIG vFB : String → Bool) (h : List String) (data out : List (List String)),
      verify_and_clean_links vIG vFB (h :: data) = some out →
      ∃ row ∈ data, ¬ linksRowOk vIG vFB (findColLast h "instagram")
        (findColLast h "facebook") row) :=
  ⟨fun h data hnd => remove_duplicates_none_of_nodup h data hnd,
    fun v out hs => remove_duplicates_some_shrinks v out hs,
    fun vIG vFB h data hok => verify_links_none_of_ok vIG vFB h data hok,
    fun vIG vFB h data out hs => verify_links_some_not_ok vIG vFB h data out hs⟩

/-- C8 witness: the write-avoidance theorem applied to concrete tables:
a duplicate-free table and an all-valid link table yield no write, a
table with one duplicate shrinks, and a rewritten link table exhibits an
invalid cell. -/
theorem c8_write_avoidance_witness :
    remove_duplicates [["Name"], ["a"], ["b"]] = none ∧
    ([["Name"], ["a"]] : List (List String)).length <
      ([["Name"], ["a"], ["a"]] : List (List String)).length ∧
    verify_and_clean_links (fun _ => true) (fun _ => true)
      [["Name", "Instagram"], ["x", "u"]] = none ∧
    ∃ row ∈ [["x", "u"]], ¬ linksRowOk (fun _ => false) (fun _ => false)
      (findColLast ["Name", "Instagram"] "instagram")
      (findColLast ["Name", "Instagram"] "facebook") row := by
  refine ⟨c8_write_avoidance.1 ["Name"] [["a"], ["b"]] (by decide),
    c8_write_avoidance.2.1 [["Name"], ["a"], ["a"]] [["Name"], ["a"]] (by decide),
    c8_write_avoidance.2.2.1 (fun _ => true) (fun _ => true) ["Name", "Instagram"]
      [["x", "u"]] ?_,
    c8_write_avoidance.2.2.2 (fun _ => false) (fun _ => false) ["Name", "Instagram"]
      [["x", "u"]] [["Name", "Instagram"], ["x", ""]] (by decide)⟩
  intro row hrow
  have hr : row = ["x", "u"] := by simpa using hrow
  subst hr
  exact ⟨Or.inr rfl, trivial⟩

theorem filterAux_ok_inv (scraped : List Item) :
    ∀ (phones names : List String) (leads : List Lead) (ps ns : List String),
      filterAux phones names scraped = .ok (leads, ps, ns) →
      (∀ l ∈ leads, l.phone ∉ phones ∧ pyLower l.title ∉ names) ∧
      (leads.map Lead.phone).Nodup ∧
      (leads.map (fun l => pyLower l.title)).Nodup := by
  induction scraped with
  | nil =>
    intro phones names leads ps ns hok
    simp only [filterAux, Except.ok.injEq, Prod.mk.injEq] at hok
    obtain ⟨hl, -, -⟩ := hok
    subst hl
    simp
  | cons item rest ih =>
    intro phones names leads ps ns hok
    rcases ht : dictGetD item.title "" with _ | rawTitle
    · simp only [filterAux, ht] at hok
      cases hok
    · rcases hp : dictGet item.phone with _ | p
      · simp only [filterAux, ht, hp] at hok
        exact ih phones names leads ps ns hok
      · simp only [filterAux, ht, hp] at hok
        by_cases hg : (p.isEmpty || (pyStrip rawTitle).isEmpty) = true
        · rw [if_pos hg] at hok
          exact ih phones names leads ps ns hok
        · rw [if_neg hg] at hok
          by_cases hc : clean_phone p ∈ phones ∨ pyLower (pyStrip rawTitle) ∈ names
          · rw [if_pos hc] at hok
            exact ih phones names leads ps ns hok
          · rw [if_neg hc] at hok
            rcases hrec : filterAux (clean_phone p :: phones)
                (pyLower (pyStrip rawTitle) :: names) rest with e | ⟨leads', ps', ns'⟩
            · rw [hrec] at hok
              cases hok
            · rw [hrec] at hok
              simp only [Except.ok.injEq, Prod.mk.injEq] at hok
              obtain ⟨hl, -, -⟩ := hok
              subst hl
              obtain ⟨hfresh, hnd1, hnd2⟩ := ih _ _ _ _ _ hrec
              obtain ⟨hc1, hc2⟩ := not_or.mp hc
              refine ⟨?_, ?_, ?_⟩
              · intro l hl
                rcases List.mem_cons.mp hl with he | hm
                · subst he
                  exact ⟨hc1, hc2⟩
                · obtain ⟨h1, h2⟩ := hfresh l hm
                  exact ⟨fun hh => h1 (List.mem_cons_of_mem _ hh),
                    fun hh => h2 (List.mem_cons_of_mem _ hh)⟩
              · rw [List.map_cons, List.nodup_cons]
                constructor
                · intro hmem
                  obtain ⟨l, hml, hlp⟩ := List.mem_map.mp hmem
                  apply (hfresh l hml).1
                  rw [hlp]
                  exact List.mem_cons_self _ _
                · exact hnd1
              · rw [List.map_cons, List.nodup_cons]
                constructor
                · intro hmem
                  obtain ⟨l, hml, hlp⟩ := List.mem_map.mp hmem
                  apply (hfresh l hml).2
                  rw [hlp]
                  exact List.mem_cons_self _ _
                · exact hnd2

/-- C6: the batch dedup is single-pass and order-sensitive: whatever the
initial tracking sets, a successful run accepts leads with pairwise
distinct cleaned phones and pairwise distinct normalized names, each
absent from the initial sets (so an accepted candidate's keys immediately
block later candidates); a candidate whose cleaned phone or normalized
name is already tracked is skipped with the state unchanged, so only the
first of two colliding candidates in a batch is accepted; and a run over
a batch with no persisted leads yields pairwise-distinct keys. -/
theorem c6_single_pass_dedup :
    (∀ (phones names : List String) (scraped : List Item) (leads : List Lead)
        (ps ns : List String),
      filterAux phones names scraped = .ok (leads, ps, ns) →
      (∀ l ∈ leads, l.phone ∉ phones ∧ pyLower l.title ∉ names) ∧
      (leads.map Lead.phone).Nodup ∧
      (leads.map (fun l => pyLower l.title)).Nodup) ∧
    (∀ (phones names : List String) (item : Item) (rest : List Item)
        (p rawTitle : String),
      dictGet item.phone = some p → dictGetD item.title "" = some rawTitle →
      p.isEmpty = false → (pyStrip rawTitle).isEmpty = false →
      (clean_phone p ∈ phones ∨ pyLower (pyStrip rawTitle) ∈ names) →
      filterAux phones names (item :: rest) = filterAux phones names rest) ∧
    (∀ (scraped : List Item) (leads : List Lead),
      filter_new_leads scraped [] = .ok leads →
      (leads.map Lead.phone).Nodup ∧
      (leads.map (fun l => pyLower l.title)).Nodup) := by
  refine ⟨?_, ?_, ?_⟩
  · intro phones names scraped leads ps ns hok
    exact filterAux_ok_inv scraped phones names leads ps ns hok
  · intro phones names item rest p rawTitle hp ht hpe hte hcol
    simp [filterAux, hp, ht, hpe, hte, hcol]
  · intro scraped leads hok
    simp only [filter_new_leads, List.filterMap_nil] at hok
    rcases hrec : filterAux [] [] scraped with e | ⟨leads', ps', ns'⟩
    · rw [hrec] at hok
      cases hok
    · rw [hrec] at hok
      simp only [Except.map, Except.ok.injEq] at hok
      subst hok
      exact (filterAux_ok_inv scraped [] [] leads' ps' ns' hrec).2

/-- C6 witness: the single-pass dedup theorem applied to a concrete batch
with a repeated phone and a repeated name. -/
theorem c6_single_pass_dedup_witness :
    filterAux [] [] [{ title := some (some "A"), phone := some (some "+1 2") }, { title := some (some "B"), phone := some (some "12") }, { title := some (some "a "), phone := some (some "9") }] = .ok ([{ title := "A", phone := "12", address := some "", website := some "", email := "", instagram := "", facebook := "", linkedin := "" }], ["12"], ["a"]) ∧
    (∀ l ∈ [({ title := "A", phone := "12", address := some "", website := some "", email := "", instagram := "", facebook := "", linkedin := "" } : Lead)], l.phone ∉ ([] : List String) ∧ pyLower l.title ∉ ([] : List String)) ∧
    ([({ title := "A", phone := "12", address := some "", website := some "", email := "", instagram := "", facebook := "", linkedin := "" } : Lead)].map Lead.phone).Nodup ∧
    ([({ title := "A", phone := "12", address := some "", website := some "", email := "", instagram := "", facebook := "", linkedin := "" } : Lead)].map (fun l => pyLower l.title)).Nodup := by
  refine ⟨by rfl, ?_⟩
  exact c6_single_pass_dedup.1 [] [] [{ title := some (some "A"), phone := some (some "+1 2") }, { title := some (some "B"), phone := some (some "12") }, { title := some (some "a "), phone := some (some "9") }] [{ title := "A", phone := "12", address := some "", website := some "", email := "", instagram := "", facebook := "", linkedin := "" }] ["12"] ["a"] (by rfl)

theorem scanFirst_none_iff (p : List Char → Option String) (cs : List Char) :
    scanFirst p cs = none ↔ ∀ i, p (cs.drop i) = none := by
  induction cs with
  | nil =>
    constructor
    · intro h i
      simpa using h
    · intro h
      exact h 0
  | cons c rest ih =>
    rcases hp : p (c :: rest) with _ | r
    · simp only [scanFirst, hp]
      rw [ih]
      constructor
      · intro h i
        cases i with
        | zero => simpa using hp
        | succ j => simpa using h j
      · intro h i
        simpa using h (i + 1)
    · simp only [scanFirst, hp]
      constructor
      · intro h
        cases h
      · intro h
        have h0 := h 0
        rw [List.drop_zero, hp] at h0
        cases h0

theorem scanFirst_some_iff (p : List Char → Option String) (cs : List Char)
    (a : String) :
    scanFirst p cs = some a ↔
      ∃ i, p (cs.drop i) = some a ∧ ∀ j < i, p (cs.drop j) = none := by
  induction cs with
  | nil =>
    constructor
    · intro h
      exact ⟨0, by simpa using h, fun j hj => absurd hj (Nat.not_lt_zero j)⟩
    · rintro ⟨i, hi, -⟩
      simpa using hi
  | cons c rest ih =>
    rcases hp : p (c :: rest) with _ | r
    · simp only [scanFirst, hp]
      rw [ih]
      constructor
      · rintro ⟨i, hi, hj⟩
        refine ⟨i + 1, by simpa using hi, ?_⟩
        intro j hj'
        cases j with
        | zero => simpa using hp
        | succ j' => simpa using hj j' (Nat.lt_of_succ_lt_succ hj')
      · rintro ⟨i, hi, hj⟩
        cases i with
        | zero =>
          rw [List.drop_zero, hp] at hi
          cases hi
        | succ i' =>
          refine ⟨i', by simpa using hi, ?_⟩
          intro j hj'
          simpa using hj (j + 1) (Nat.succ_lt_succ hj')
    · simp only [scanFirst, hp]
      constructor
      · intro h
        refine ⟨0, ?_, fun j hj => absurd hj (Nat.not_lt_zero j)⟩
        rw [List.drop_zero, hp]
        exact h
      · rintro ⟨i, hi, hj⟩
        cases i with
        | zero =>
          rw [List.drop_zero, hp] at hi
          exact hi
        | succ i' =>
          have h0 := hj 0 (Nat.succ_pos i')
          rw [List.drop_zero, hp] at h0
          cases h0

theorem emailAt_nil (prev : Option Char) : emailAt prev [] = none := rfl

theorem ctxAt_cons (prev : Option Char) (c : Char) (rest : List Char) (i : Nat) :
    ctxAt prev (c :: rest) (i + 1) = ctxAt (some c) rest i := by
  cases i with
  | zero => rfl
  | succ j => rfl

theorem ctxAt_zero (prev : Option Char) (cs : List Char) :
    ctxAt prev cs 0 = prev := rfl

theorem scanEmail_none_iff (cs : List Char) : ∀ prev,
    scanEmail prev cs = none ↔
      ∀ i, emailAt (ctxAt prev cs i) (cs.drop i) = none := by
  induction cs with
  | nil =>
    intro prev
    constructor
    · intro _ i
      rw [List.drop_nil]
      exact emailAt_nil _
    · intro _
      rfl
  | cons c rest ih =>
    intro prev
    rcases hp : emailAt prev (c :: rest) with _ | m
    · simp only [scanEmail, hp]
      rw [ih (some c)]
      constructor
      · intro h i
        cases i with
        | zero => simpa [ctxAt_zero] using hp
        | succ j =>
          rw [ctxAt_cons]
          simpa using h j
      · intro h i
        have hs := h (i + 1)
        rw [ctxAt_cons] at hs
        simpa using hs
    · simp only [scanEmail, hp]
      constructor
      · intro h
        cases h
      · intro h
        have h0 := h 0
        rw [List.drop_zero, ctxAt_zero, hp] at h0
        cases h0

theorem scanEmail_some_iff (cs : List Char) : ∀ prev (m : String),
    scanEmail prev cs = some m ↔
      ∃ i, emailAt (ctxAt prev cs i) (cs.drop i) = some m ∧
        ∀ j < i, emailAt (ctxAt prev cs j) (cs.drop j) = none := by
  induction cs with
  | nil =>
    intro prev m
    constructor
    · intro h
      cases h
    · rintro ⟨i, hi, -⟩
      rw [List.drop_nil, emailAt_nil] at hi
      cases hi
  | cons c rest ih =>
    intro prev m
    rcases hp : emailAt prev (c :: rest) with _ | r
    · simp only [scanEmail, hp]
      rw [ih (some c) m]
      constructor
      · rintro ⟨i, hi, hj⟩
        refine ⟨i + 1, by rw [ctxAt_cons]; simpa using hi, ?_⟩
        intro j hj'
        cases j with
        | zero =>
          rw [List.drop_zero, ctxAt_zero]
          exact hp
        | succ j' =>
          rw [ctxAt_cons]
          simpa using hj j' (Nat.lt_of_succ_lt_succ hj')
      · rintro ⟨i, hi, hj⟩
        cases i with
        | zero =>
          rw [List.drop_zero, ctxAt_zero, hp] at hi
          cases hi
        | succ i' =>
          rw [ctxAt_cons] at hi
          refine ⟨i', by simpa using hi, ?_⟩
          intro j hj'
          have hs := hj (j + 1) (Nat.succ_lt_succ hj')
          rw [ctxAt_cons] at hs
          simpa using hs
    · simp only [scanEmail, hp]
      constructor
      · intro h
        refine ⟨0, ?_, fun j hj => absurd hj (Nat.not_lt_zero j)⟩
        rw [List.drop_zero, ctxAt_zero, hp]
        exact h
      · rintro ⟨i, hi, hj⟩
        cases i with
        | zero =>
          rw [List.drop_zero, ctxAt_zero, hp] at hi
          exact hi
        | succ i' =>
          have h0 := hj 0 (Nat.succ_pos i')
          rw [List.drop_zero, ctxAt_zero, hp] at h0
          cases h0

/-- C3 (counterexample): the claim says each social match is normalized
to `https://<platform>.com/` followed by the matched profile path, the
LinkedIn pattern distinguishing `company` vs `in` segments.  The code
formats every LinkedIn capture as `https://linkedin.com/company/<name>`,
so an `in/` profile is rewritten under `company/` and the distinction is
lost in the output. -/
theorem c3_linkedin_counterexample :
    (extractContacts "linkedin.com/in/alice").linkedin =
        some "https://linkedin.com/company/alice" ∧
      some "https://linkedin.com/company/alice" ≠
        some "https://linkedin.com/in/alice" := by decide

/-- C3 (amended): for every page content, each of the four fields holds
the match of its pattern at the least content position (taking no later
match), normalized for the social fields to
`https://<platform>.com/<captured name>` — with every LinkedIn capture
(whether matched under `company/` or `in/`) rewritten under `company/` —
and is `none` when the pattern matches nowhere. -/
theorem c3_first_match_extraction :
    ∀ content : String,
      (((extractContacts content).email = none ∧
          ∀ i, emailAt (ctxAt none content.toList i) (content.toList.drop i) = none) ∨
        (∃ i m, emailAt (ctxAt none content.toList i) (content.toList.drop i) = some m ∧
          (∀ j < i, emailAt (ctxAt none content.toList j) (content.toList.drop j) = none) ∧
          (extractContacts content).email = some m)) ∧
      (((extractContacts content).instagram = none ∧
          ∀ i, igAt (content.toList.drop i) = none) ∨
        (∃ i u, igAt (content.toList.drop i) = some u ∧
          (∀ j < i, igAt (content.toList.drop j) = none) ∧
          (extractContacts content).instagram = some ("https://instagram.com/" ++ u))) ∧
      (((extractContacts content).facebook = none ∧
          ∀ i, fbAt (content.toList.drop i) = none) ∨
        (∃ i u, fbAt (content.toList.drop i) = some u ∧
          (∀ j < i, fbAt (content.toList.drop j) = none) ∧
          (extractContacts content).facebook = some ("https://facebook.com/" ++ u))) ∧
      (((extractContacts content).linkedin = none ∧
          ∀ i, liAt (content.toList.drop i) = none) ∨
        (∃ i u, liAt (content.toList.drop i) = some u ∧
          (∀ j < i, liAt (content.toList.drop j) = none) ∧
          (extractContacts content).linkedin =
            some ("https://linkedin.com/company/" ++ u))) := by
  intro content
  refine ⟨?_, ?_, ?_, ?_⟩
  · rcases hscan : scanEmail none content.toList with _ | m
    · exact Or.inl ⟨by simp only [extractContacts, hscan, Option.map_some', Option.map_none'],
        (scanEmail_none_iff content.toList none).mp hscan⟩
    · obtain ⟨i, hi, hj⟩ := (scanEmail_some_iff content.toList none m).mp hscan
      exact Or.inr ⟨i, m, hi, hj, by simp only [extractContacts, hscan, Option.map_some', Option.map_none']⟩
  · rcases hscan : scanFirst igAt content.toList with _ | u
    · exact Or.inl ⟨by simp only [extractContacts, hscan, Option.map_some', Option.map_none'],
        (scanFirst_none_iff igAt content.toList).mp hscan⟩
    · obtain ⟨i, hi, hj⟩ := (scanFirst_some_iff igAt content.toList u).mp hscan
      exact Or.inr ⟨i, u, hi, hj, by simp only [extractContacts, hscan, Option.map_some', Option.map_none']⟩
  · rcases hscan : scanFirst fbAt content.toList with _ | u
    · exact Or.inl ⟨by simp only [extractContacts, hscan, Option.map_some', Option.map_none'],
        (scanFirst_none_iff fbAt content.toList).mp hscan⟩
    · obtain ⟨i, hi, hj⟩ := (scanFirst_some_iff fbAt content.toList u).mp hscan
      exact Or.inr ⟨i, u, hi, hj, by simp only [extractContacts, hscan, Option.map_some', Option.map_none']⟩
  · rcases hscan : scanFirst liAt content.toList with _ | u
    · exact Or.inl ⟨by simp only [extractContacts, hscan, Option.map_some', Option.map_none'],
        (scanFirst_none_iff liAt content.toList).mp hscan⟩
    · obtain ⟨i, hi, hj⟩ := (scanFirst_some_iff liAt content.toList u).mp hscan
      exact Or.inr ⟨i, u, hi, hj, by simp only [extractContacts, hscan, Option.map_some', Option.map_none']⟩

end LeadScraper
